import Mathlib

/-!
Verification of the Stockspan-Visualizer core against its specification.

The development shallowly embeds the four core components of the repository:

* `calculateSpan` — the stack-based stock-span calculator
  (`src/utils/stockSpanCalculator.ts`, `StockSpanCalculator.calculateSpan`);
* `computeMA` / `calculateMovingAverages` — the queue-based sliding-window
  moving-average calculator (`MovingAverageCalculator.calculateMovingAverages`);
* `calculateSentimentSpanCorrelation` / `pearsonCorrelation` — the sentiment
  correlation module (`SentimentAnalyzer`);
* `processQuery` with its pattern table and handlers — the conversational
  query router (`ConversationalAI`).

JavaScript numbers are modelled as `ℚ` (exact comparisons and arithmetic;
the code performs no operation that leaves ℚ) except in the correlation
module, where `Math.sqrt` forces `ℝ`.  JavaScript's `Math.random()` inputs
are modelled as explicit parameters.  Possibly-absent object fields
(`span?`, dynamically assigned `ma5/ma10/ma20`) are `Option ℚ`; the
JavaScript truthiness tests `x || 0` and `x?.f() || d` are modelled
value-accurately (`0` is falsy).
-/

/-! Section: stock span calculator (`StockSpanCalculator.calculateSpan`)

Source:
```
calculateSpan(prices: number[]): number[] {
  const spans: number[] = [];
  this.stack = []; // Reset stack for new calculation
  for (let i = 0; i < prices.length; i++) {
    while (this.stack.length > 0 && this.stack[this.stack.length - 1].price <= prices[i]) {
      this.stack.pop();
    }
    const span = this.stack.length === 0 ? i + 1 : i - this.stack[this.stack.length - 1].index;
    spans.push(span);
    this.stack.push({ index: i, price: prices[i] });
  }
  return spans;
}
```
The JS stack stores its top at the array's end; we store the top at the
head of a Lean list, so the JS pop-while loop is `List.dropWhile`. -/

structure SpanEntry where
  index : Nat
  price : ℚ
deriving DecidableEq

/-- One iteration of the `for` loop body: pop while top price ≤ current,
read off the span, push the current entry.  Returns (span, new stack). -/
def spanStep (stack : List SpanEntry) (i : Nat) (p : ℚ) : Nat × List SpanEntry :=
  let stack1 := stack.dropWhile (fun e => decide (e.price ≤ p))
  (match stack1 with
   | [] => i + 1
   | e :: _ => i - e.index,
   ⟨i, p⟩ :: stack1)

/-- The `for` loop over the remaining prices, carrying the index and stack. -/
def spanLoop : List ℚ → Nat → List SpanEntry → List Nat
  | [], _, _ => []
  | p :: ps, i, stack =>
      let r := spanStep stack i p
      r.1 :: spanLoop ps (i + 1) r.2

def calculateSpan (prices : List ℚ) : List Nat :=
  spanLoop prices 0 []

/-- Price at index `i` (JS array read `prices[i]`; only used at in-bounds
indices). -/
def pAt (prices : List ℚ) (i : Nat) : ℚ := prices.getD i 0

/-- Specification-side definition of the span, from the spec's words:
"count of consecutive prior bars (inclusive) whose close is ≤ the current
bar's close".  A bar `j ≤ i` belongs to the consecutive run ending at `i`
iff every bar between `j` and `i` (inclusive) has close ≤ the close at
`i`; the span is the number of such bars. -/
def specSpan (prices : List ℚ) (i : Nat) : Nat :=
  ((List.range (i + 1)).filter
    (fun j => decide (∀ m, m ≤ i → j ≤ m → pAt prices m ≤ pAt prices i))).length

/-! Section: stack invariant for the monotonic stack -/

/-- Index `j` is *dominant* at time `n`: it has been processed and every
strictly later processed bar has a strictly smaller close.  The stack
holds exactly the dominant indices. -/
def Dominant (prices : List ℚ) (n j : Nat) : Prop :=
  j < n ∧ ∀ m, j < m → m < n → pAt prices m < pAt prices j

structure StackInv (prices : List ℚ) (n : Nat) (stack : List SpanEntry) : Prop where
  sound : ∀ e ∈ stack, e.price = pAt prices e.index ∧ Dominant prices n e.index
  complete : ∀ j, Dominant prices n j → ∃ e ∈ stack, e.index = j
  decr : stack.Pairwise (fun a b => b.index < a.index)

/-! Section: moving averages (`MovingAverageCalculator.calculateMovingAverages`)

Source (inner loop body, per window size `w`, with persistent
`queue`/`sum` per window, reset at the start of every call):
```
queue.push(data.close);
sum += data.close;
if (queue.length > windowSize) {
  const removedValue = queue.shift()!;
  sum -= removedValue;
}
this.sums.set(windowSize, sum);
if (queue.length === windowSize) {
  averages[`ma${windowSize}`] = sum / windowSize;
} else {
  averages[`ma${windowSize}`] = sum / queue.length;
}
```
The JS queue holds its oldest element at index 0 (`shift` removes it);
we model it as a list with the oldest element at the head. -/

structure WinState where
  queue : List ℚ
  sum : ℚ
deriving DecidableEq

/-- One update of a single window's queue/sum, returning the reported
average together with the new state. -/
def maStep (w : Nat) (st : WinState) (close : ℚ) : ℚ × WinState :=
  let q1 := st.queue ++ [close]
  let s1 := st.sum + close
  let qs : List ℚ × ℚ :=
    if w < q1.length then
      match q1 with
      | [] => (q1, s1)
      | old :: rest => (rest, s1 - old)
    else (q1, s1)
  (if qs.1.length = w then qs.2 / (w : ℚ) else qs.2 / (qs.1.length : ℚ), ⟨qs.1, qs.2⟩)

/-- A single window size's view of the `stockData.forEach` loop. -/
def maRun (w : Nat) : WinState → List ℚ → List ℚ
  | _, [] => []
  | st, c :: cs =>
      let r := maStep w st c
      r.1 :: maRun w r.2 cs

/-- The sequence of averages reported for window size `w` on a close
series (fresh state, as after the per-call reset). -/
def computeMA (w : Nat) (closes : List ℚ) : List ℚ :=
  maRun w ⟨[], 0⟩ closes

/-- Last `min w l.length` elements of `l`. -/
def lastN (w : Nat) (l : List ℚ) : List ℚ := l.drop (l.length - w)

/-! Section: the full per-day record loop

`calculateMovingAverages` iterates over the stock data once, and for each
day folds over the window sizes `[5, 10, 20]` (the constructor default,
used by the app), reading and writing each window's queue/sum in the
`Map`s and dynamically assigning the field `ma${w}` on the day's record.
The `Map`s keyed by the three distinct window sizes are represented by
three explicit `WinState`s; the dynamically-built record starts with only
`date` set (all `maN` fields absent). -/

structure StockData where
  date : String
  openPrice : ℚ
  high : ℚ
  low : ℚ
  close : ℚ
  volume : ℚ
  span : Option ℚ
deriving DecidableEq

structure MARecord where
  date : String
  ma5 : Option ℚ
  ma10 : Option ℚ
  ma20 : Option ℚ
deriving DecidableEq

/-- Dynamic field assignment `averages[...] = v` for `w ∈ {5, 10, 20}`. -/
def setMA (r : MARecord) (w : Nat) (v : ℚ) : MARecord :=
  if w = 5 then { r with ma5 := some v }
  else if w = 10 then { r with ma10 := some v }
  else if w = 20 then { r with ma20 := some v }
  else r

def maRecLoop : List StockData → WinState → WinState → WinState → List MARecord
  | [], _, _, _ => []
  | d :: ds, s5, s10, s20 =>
      let r5 := maStep 5 s5 d.close
      let r10 := maStep 10 s10 d.close
      let r20 := maStep 20 s20 d.close
      let base : MARecord := ⟨d.date, none, none, none⟩
      setMA (setMA (setMA base 5 r5.1) 10 r10.1) 20 r20.1 ::
        maRecLoop ds r5.2 r10.2 r20.2

def calculateMovingAverages (data : List StockData) : List MARecord :=
  maRecLoop data ⟨[], 0⟩ ⟨[], 0⟩ ⟨[], 0⟩

/-! Section: sentiment correlation (`SentimentAnalyzer`)

Source (`calculateSentimentSpanCorrelation` / `pearsonCorrelation`):
```
if (sentimentData.length !== stockData.length || sentimentData.length < 2) return 0;
const sentimentScores = sentimentData.map(s => s.score);
const spans = stockData.map(s => s.span || 0);
return this.pearsonCorrelation(sentimentScores, spans);
...
const n = x.length;
if (n === 0) return 0;
const sumX = x.reduce((a, b) => a + b, 0); ... (sumY, sumXY, sumXX, sumYY)
const numerator = n * sumXY - sumX * sumY;
const denominator = Math.sqrt((n * sumXX - sumX * sumX) * (n * sumYY - sumY * sumY));
return denominator === 0 ? 0 : numerator / denominator;
```
`Math.sqrt` forces the model into `ℝ` (hence `noncomputable`); the
indexed reductions are modelled as `Finset.range` sums over `getD`
(within `pearsonCorrelation` the code only reads `y[i]` for `i` below
`x.length`; its caller guarantees equal lengths). -/

structure SentimentData where
  date : String
  score : ℝ
  confidence : ℝ
  volume : ℝ

noncomputable def pearsonCorrelation (x y : List ℝ) : ℝ :=
  let n := x.length
  if n = 0 then 0 else
  let sumX := ∑ i ∈ Finset.range n, x.getD i 0
  let sumY := ∑ i ∈ Finset.range n, y.getD i 0
  let sumXY := ∑ i ∈ Finset.range n, x.getD i 0 * y.getD i 0
  let sumXX := ∑ i ∈ Finset.range n, x.getD i 0 * x.getD i 0
  let sumYY := ∑ i ∈ Finset.range n, y.getD i 0 * y.getD i 0
  let numerator := (n : ℝ) * sumXY - sumX * sumY
  let denominator := Real.sqrt (((n : ℝ) * sumXX - sumX * sumX) * ((n : ℝ) * sumYY - sumY * sumY))
  if denominator = 0 then 0 else numerator / denominator

/-- Reading `s.span || 0` on a possibly-absent numeric field: both `undefined`
and `0` yield `0`. -/
def spanOrZero (s : StockData) : ℚ := s.span.getD 0

noncomputable def calculateSentimentSpanCorrelation
    (sentimentData : List SentimentData) (stockData : List StockData) : ℝ :=
  if sentimentData.length ≠ stockData.length ∨ sentimentData.length < 2 then 0
  else pearsonCorrelation (sentimentData.map (fun s => s.score))
    (stockData.map (fun s => ((spanOrZero s : ℚ) : ℝ)))

/-- Mean of a list (spec-side). -/
noncomputable def meanL (x : List ℝ) : ℝ :=
  (∑ i ∈ Finset.range x.length, x.getD i 0) / (x.length : ℝ)

/-- Sum of squared deviations from the mean (spec-side; zero iff the
series has zero variance). -/
noncomputable def devSq (x : List ℝ) : ℝ :=
  ∑ i ∈ Finset.range x.length, (x.getD i 0 - meanL x) ^ 2

/-- Textbook Pearson correlation coefficient of the paired series
(deviation form), from the spec's words: "standard Pearson correlation
coefficient over paired `(sentiment_i, span_i)` series". -/
noncomputable def pearsonSpec (x y : List ℝ) : ℝ :=
  (∑ i ∈ Finset.range x.length, (x.getD i 0 - meanL x) * (y.getD i 0 - meanL y)) /
    (Real.sqrt (devSq x) * Real.sqrt (devSq y))

/-! Section: conversational query router (`ConversationalAI`)

`processQuery` lower-cases and trims the query, then walks an ordered
list of regex patterns, dispatching to the handler of the first match;
if none match it returns one of three fixed default responses picked by
`Math.random()` (modelled as an explicit `Fin 3` parameter).

The regexes are hand-compiled to executable matchers over `List Char`:
an unanchored JS regex match is an existential search over start
positions (`scanAny`); `.*` is a gap of non-line-terminator characters
(`scanGap`, since `.` does not match `\n`, `\r`, U+2028, U+2029);
alternations become lists of literal alternatives (`what'?s?` is expanded
to its four concrete forms).  Literals are lower-case, matching the `i`
flag on the already lower-cased input. -/

def isDig (c : Char) : Bool := decide ('0' ≤ c) && decide (c ≤ '9')

def dotChar (c : Char) : Bool :=
  !(c == '\n' || c == '\r' || c == '\u2028' || c == '\u2029')

def hasPrefixCL : List Char → List Char → Bool
  | [], _ => true
  | _ :: _, [] => false
  | a :: as, b :: bs => a == b && hasPrefixCL as bs

/-- Does `pat` occur as a contiguous substring? -/
def occursCL (pat : List Char) : List Char → Bool
  | [] => pat.isEmpty
  | c :: rest => hasPrefixCL pat (c :: rest) || occursCL pat rest

def occursStr (pat s : String) : Bool := occursCL pat.data s.data

/-- Match one of `alts` here, then continue with `k` on the rest. -/
def matchAltsThen (alts : List (List Char)) (k : List Char → Bool) (s : List Char) : Bool :=
  alts.any (fun pat => hasPrefixCL pat s && k (s.drop pat.length))

/-- Gap `.*` then `k`: skip any number of non-line-terminator characters. -/
def scanGap (k : List Char → Bool) : List Char → Bool
  | [] => k []
  | c :: rest => k (c :: rest) || (dotChar c && scanGap k rest)

/-- Unanchored search: try `k` at every start position. -/
def scanAny (k : List Char → Bool) : List Char → Bool
  | [] => k []
  | c :: rest => k (c :: rest) || scanAny k rest

/-- Digits `(\d+)`: at least one digit here. -/
def headDigit : List Char → Bool
  | [] => false
  | c :: _ => isDig c

def trueK : List Char → Bool := fun _ => true

/-- Pattern `/(?:what'?s?|tell me|show me).*(average|ma|moving average).*(\d+)/i` -/
def p1Match (s : List Char) : Bool :=
  scanAny (matchAltsThen
    ["what".data, "what\x27".data, "whats".data, "what\x27s".data,
     "tell me".data, "show me".data]
    (scanGap (matchAltsThen ["average".data, "ma".data, "moving average".data]
      (scanGap headDigit)))) s

/-- Pattern `/(span|stock span).*today|current.*span/i` (top-level alternation). -/
def p2Match (s : List Char) : Bool :=
  scanAny (matchAltsThen ["span".data, "stock span".data]
    (scanGap (matchAltsThen ["today".data] trueK))) s ||
  scanAny (matchAltsThen ["current".data]
    (scanGap (matchAltsThen ["span".data] trueK))) s

/-- Pattern `/(price|current price|latest price)/i` -/
def p3Match (s : List Char) : Bool :=
  scanAny (matchAltsThen ["price".data, "current price".data, "latest price".data] trueK) s

/-- Pattern `/(trend|trending|direction)/i` -/
def p4Match (s : List Char) : Bool :=
  scanAny (matchAltsThen ["trend".data, "trending".data, "direction".data] trueK) s

/-- Pattern `/(buy|sell|hold|recommend)/i` -/
def p5Match (s : List Char) : Bool :=
  scanAny (matchAltsThen ["buy".data, "sell".data, "hold".data, "recommend".data] trueK) s

/-- Pattern `/(high|highest|peak)/i` -/
def p6Match (s : List Char) : Bool :=
  scanAny (matchAltsThen ["high".data, "highest".data, "peak".data] trueK) s

/-- Pattern `/(low|lowest|bottom)/i` -/
def p7Match (s : List Char) : Bool :=
  scanAny (matchAltsThen ["low".data, "lowest".data, "bottom".data] trueK) s

inductive Intent where
  | MovingAverageQuery
  | SpanQuery
  | PriceQuery
  | TrendQuery
  | RecommendationQuery
  | HighQuery
  | LowQuery
  | Unrecognized
deriving DecidableEq

/-- The ordered pattern table of `processQuery`, with the intent each
pattern's handler serves. -/
def patternTable : List ((List Char → Bool) × Intent) :=
  [(p1Match, Intent.MovingAverageQuery),
   (p2Match, Intent.SpanQuery),
   (p3Match, Intent.PriceQuery),
   (p4Match, Intent.TrendQuery),
   (p5Match, Intent.RecommendationQuery),
   (p6Match, Intent.HighQuery),
   (p7Match, Intent.LowQuery)]

/-- First-match-wins classification over a matcher table. -/
def intentOf : List ((List Char → Bool) × Intent) → List Char → Intent
  | [], _ => Intent.Unrecognized
  | mi :: rest, cs => if mi.1 cs then mi.2 else intentOf rest cs

/-- JS `String.prototype.trim` whitespace (WhiteSpace and LineTerminator
code points). -/
def isWSChar (c : Char) : Bool :=
  c == ' ' || c == '\t' || c == '\n' || c == '\r' || c == '\x0b' || c == '\x0c' ||
  c == '\u00a0' || c == '\ufeff' || c == '\u1680' ||
  ('\u2000' ≤ c && c ≤ '\u200a') || c == '\u2028' || c == '\u2029' ||
  c == '\u202f' || c == '\u205f' || c == '\u3000'

/-- Strip leading and trailing whitespace. -/
def trimCL (cs : List Char) : List Char :=
  ((cs.dropWhile isWSChar).reverse.dropWhile isWSChar).reverse

/-- Normalization `query.toLowerCase().trim()`.  `Char.toLower` performs the ASCII
mapping, which is what the lower-case pattern literals depend on. -/
def normalizeQuery (query : String) : List Char :=
  trimCL (query.data.map Char.toLower)

/-- Intent of a raw query: matchers run on the lower-cased trimmed text. -/
def classify (query : String) : Intent :=
  intentOf patternTable (normalizeQuery query)

/-! Section: number formatting and query helpers -/

def digitVal (c : Char) : Nat := c.toNat - 48

/-- Consume a maximal digit run (the tail of `parseInt` on a `\d+` match). -/
def readDigits : List Char → Nat → Nat
  | [], acc => acc
  | c :: cs, acc => if isDig c then readDigits cs (acc * 10 + digitVal c) else acc

/-- Extraction `query.match(/(\d+)/)` followed by `parseInt`: the first maximal digit
run in the text, if any. -/
def firstNum : List Char → Option Nat
  | [] => none
  | c :: cs => if isDig c then some (readDigits cs (digitVal c)) else firstNum cs

/-- Rendering `x.toFixed(2)`: two-decimal rendering.  ECMAScript picks the closest
`n / 100` with the larger `n` on ties, i.e. round half up. -/
def toFixed2 (q : ℚ) : String :=
  let cents : Int := round (q * 100)
  let a := cents.natAbs
  (if cents < 0 then "-" else "") ++ toString (a / 100) ++ "." ++
    (if a % 100 < 10 then "0" else "") ++ toString (a % 100)

/-- Template-literal rendering of a number (`${span}`); the spans the
pipeline produces are integers, rendered as JS renders them. -/
def numToStr (q : ℚ) : String :=
  if q.den = 1 then toString q.num else toFixed2 q

/-- JS truthiness of a possibly-absent number (`undefined` and `0` are
falsy). -/
def isTruthyQ : Option ℚ → Bool
  | none => false
  | some v => decide (v ≠ 0)

/-- Rendering `x?.toFixed(2) || 'N/A'`: `toFixed2` never returns an empty (falsy)
string, so the fallback fires exactly when the field is absent. -/
def fmtOptMA : Option ℚ → String
  | none => "N/A"
  | some v => toFixed2 v

/-- The mutable state of `ConversationalAI` (set by `updateData`). -/
structure AIState where
  stockData : List StockData
  movingAverages : List MARecord

/-! Section: intent handlers -/

def handleMovingAverageQuery (ai : AIState) (query : String) : String :=
  match ai.movingAverages.getLast? with
  | none => "I don\x27t have any stock data loaded yet. Please upload some data first."
  | some latest =>
    let days := (firstNum query.data).getD 10
    if days = 5 && isTruthyQ latest.ma5 then
      "The 5-day moving average is $" ++ toFixed2 (latest.ma5.getD 0) ++ "."
    else if days = 10 && isTruthyQ latest.ma10 then
      "The 10-day moving average is $" ++ toFixed2 (latest.ma10.getD 0) ++ "."
    else if days = 20 && isTruthyQ latest.ma20 then
      "The 20-day moving average is $" ++ toFixed2 (latest.ma20.getD 0) ++ "."
    else
      "I have moving averages for 5, 10, and 20 days. The latest values are: 5-day: $" ++
        fmtOptMA latest.ma5 ++ ", 10-day: $" ++ fmtOptMA latest.ma10 ++
        ", 20-day: $" ++ fmtOptMA latest.ma20 ++ "."

def handleCurrentSpanQuery (ai : AIState) : String :=
  match ai.stockData.getLast? with
  | none => "No stock data available. Please upload data to see span analysis."
  | some latest =>
    let span := latest.span.getD 0
    let interpretation :=
      if 10 < span then " This indicates a strong bullish trend!"
      else if 5 < span then " This shows moderate bullish momentum."
      else if span ≤ 2 then " This suggests bearish pressure or consolidation."
      else " This indicates neutral market sentiment."
    "The current stock span is " ++ numToStr span ++ " days." ++ interpretation

def handlePriceQuery (ai : AIState) : String :=
  match ai.stockData.getLast? with
  | none => "No stock data available. Please upload data to see current price."
  | some latest =>
    let previous : Option StockData :=
      if 1 < ai.stockData.length then ai.stockData[ai.stockData.length - 2]? else none
    let changeText :=
      match previous with
      | none => ""
      | some prev =>
        let change := latest.close - prev.close
        let changePercent := change / prev.close * 100
        " " ++ (if 0 ≤ change then "📈" else "📉") ++ " " ++
          (if 0 ≤ change then "+" else "") ++ "$" ++ toFixed2 change ++ " (" ++
          (if 0 ≤ changePercent then "+" else "") ++ toFixed2 changePercent ++ "%)"
    "The current price is $" ++ toFixed2 latest.close ++ "." ++ changeText

def handleTrendQuery (ai : AIState) : String :=
  if ai.stockData.length < 5 then
    "I need more data to analyze the trend. Please provide at least 5 days of data."
  else
    let recent := ai.stockData.drop (ai.stockData.length - 5)
    let priceChanges := (recent.zip recent.tail).map (fun pr => pr.2.close - pr.1.close)
    let upDays := (priceChanges.filter (fun c => decide (0 < c))).length
    let downDays := (priceChanges.filter (fun c => decide (c < 0))).length
    let tp : String × String :=
      if 3 ≤ upDays then ("bullish uptrend", "🚀")
      else if 3 ≤ downDays then ("bearish downtrend", "📉")
      else ("sideways consolidation", "↔️")
    match ai.stockData.getLast? with
    | none => ""
    | some latest =>
      let spanTrend := if 5 < latest.span.getD 0 then "strong momentum" else "weak momentum"
      tp.2 ++ " The stock is showing a " ++ tp.1 ++ " with " ++ spanTrend ++
        " based on the recent 5-day pattern."

/-- The signal list built by the recommendation handler, in push order. -/
def recSignals (latest : StockData) (latestMA : MARecord) : List String :=
  (if latestMA.ma10.getD 0 < latest.close then ["Price above 10-day MA (Bullish)"] else []) ++
  (if latest.close < latestMA.ma10.getD 0 then ["Price below 10-day MA (Bearish)"] else []) ++
  (if 7 < latest.span.getD 0 then ["High span indicates strong momentum (Bullish)"] else []) ++
  (if latest.span.getD 0 ≤ 2 then ["Low span indicates weak momentum (Bearish)"] else [])

def handleRecommendationQuery (ai : AIState) : String :=
  if ai.stockData.isEmpty || ai.movingAverages.isEmpty then
    "I need stock data to provide recommendations. Please upload data first."
  else
    match ai.stockData.getLast?, ai.movingAverages.getLast? with
    | some latest, some latestMA =>
      let signals := recSignals latest latestMA
      let bullishSignals := (signals.filter (fun s => occursStr "Bullish" s)).length
      let bearishSignals := (signals.filter (fun s => occursStr "Bearish" s)).length
      let rr : String × String :=
        if bearishSignals < bullishSignals then
          ("BUY", "Multiple bullish indicators align for a potential buying opportunity.")
        else if bullishSignals < bearishSignals then
          ("SELL", "Bearish signals suggest considering a sell position.")
        else
          ("HOLD", "Mixed signals suggest holding current position.")
      "📊 **" ++ rr.1 ++ "** - " ++ rr.2 ++ "\n\nSignals: " ++ String.intercalate ", " signals
    | _, _ => ""

def handleHighQuery (ai : AIState) : String :=
  match ai.stockData with
  | [] => "No data available to find highest price."
  | d :: ds =>
    let highestPrice := ds.foldl (fun m x => max m x.high) d.high
    let dateStr :=
      match (d :: ds).find? (fun x => decide (x.high = highestPrice)) with
      | some day => day.date
      | none => "undefined"
    "The highest price was $" ++ toFixed2 highestPrice ++ " on " ++ dateStr ++ "."

def handleLowQuery (ai : AIState) : String :=
  match ai.stockData with
  | [] => "No data available to find lowest price."
  | d :: ds =>
    let lowestPrice := ds.foldl (fun m x => min m x.low) d.low
    let dateStr :=
      match (d :: ds).find? (fun x => decide (x.low = lowestPrice)) with
      | some day => day.date
      | none => "undefined"
    "The lowest price was $" ++ toFixed2 lowestPrice ++ " on " ++ dateStr ++ "."

def defaultResponses : List String :=
  ["I can help you analyze stock data! Try asking about moving averages, current prices, trends, or recommendations.",
   "Ask me about stock spans, price movements, or technical analysis. I\x27m here to help!",
   "I can provide insights on trends, moving averages, and trading recommendations. What would you like to know?"]

/-- Selection `responses[Math.floor(Math.random() * responses.length)]`; the random
draw is the explicit index `k`. -/
def getDefaultResponse (k : Fin 3) : String :=
  defaultResponses.get ⟨k.val, k.isLt⟩

/-- Handler dispatched for each intent (the pairing implicit in the
source's pattern/handler table). -/
def handleIntent (ai : AIState) (k : Fin 3) (nq : String) : Intent → String
  | Intent.MovingAverageQuery => handleMovingAverageQuery ai nq
  | Intent.SpanQuery => handleCurrentSpanQuery ai
  | Intent.PriceQuery => handlePriceQuery ai
  | Intent.TrendQuery => handleTrendQuery ai
  | Intent.RecommendationQuery => handleRecommendationQuery ai
  | Intent.HighQuery => handleHighQuery ai
  | Intent.LowQuery => handleLowQuery ai
  | Intent.Unrecognized => getDefaultResponse k

/-- Router `ConversationalAI.processQuery`: normalize, walk the pattern list in
order, first match wins, default response otherwise. -/
def processQuery (ai : AIState) (k : Fin 3) (query : String) : String :=
  let cs := normalizeQuery query
  let nq : String := ⟨cs⟩
  if p1Match cs then handleMovingAverageQuery ai nq
  else if p2Match cs then handleCurrentSpanQuery ai
  else if p3Match cs then handlePriceQuery ai
  else if p4Match cs then handleTrendQuery ai
  else if p5Match cs then handleRecommendationQuery ai
  else if p6Match cs then handleHighQuery ai
  else if p7Match cs then handleLowQuery ai
  else getDefaultResponse k

/-! Section: spec-side recommendation rule and concrete contexts -/

/-- Spec-side bullish-signal count: close above the 10-day MA, span above 7. -/
def bullCount (latest : StockData) (latestMA : MARecord) : Nat :=
  (if latestMA.ma10.getD 0 < latest.close then 1 else 0) +
  (if 7 < latest.span.getD 0 then 1 else 0)

/-- Spec-side bearish-signal count: close below the 10-day MA, span ≤ 2. -/
def bearCount (latest : StockData) (latestMA : MARecord) : Nat :=
  (if latest.close < latestMA.ma10.getD 0 then 1 else 0) +
  (if latest.span.getD 0 ≤ 2 then 1 else 0)

/-- Spec-side recommendation: BUY iff bullish > bearish, SELL iff bearish
> bullish, else HOLD. -/
def recWord (latest : StockData) (latestMA : MARecord) : String :=
  if bearCount latest latestMA < bullCount latest latestMA then "BUY"
  else if bullCount latest latestMA < bearCount latest latestMA then "SELL"
  else "HOLD"

def recReason (latest : StockData) (latestMA : MARecord) : String :=
  if bearCount latest latestMA < bullCount latest latestMA then
    "Multiple bullish indicators align for a potential buying opportunity."
  else if bullCount latest latestMA < bearCount latest latestMA then
    "Bearish signals suggest considering a sell position."
  else "Mixed signals suggest holding current position."

/-- Context with close 110 above `ma10 = 100` and span 9. -/
def ctxBuy : AIState :=
  ⟨[⟨"2024-01-01", 100, 112, 95, 110, 1000, some 9⟩],
   [⟨"2024-01-01", some 105, some 100, some 95⟩]⟩

/-- Context whose latest moving-average record has `ma10 = 123.45`. -/
def ctxMA : AIState :=
  ⟨[⟨"2024-01-02", 120, 125, 119, 124, 1000, some 3⟩],
   [⟨"2024-01-02", some 120, some (12345 / 100), some 118⟩]⟩

/-! Section: proofs.  All definitions are above; everything below is a
theorem about them. -/
/-- If no earlier bar is higher, the whole prefix is the run. -/
lemma specSpan_of_no_violator {prices : List ℚ} {i : Nat}
    (h : ∀ j, j < i → pAt prices j ≤ pAt prices i) :
    specSpan prices i = i + 1 := by
  unfold specSpan
  rw [List.filter_eq_self.mpr, List.length_range]
  intro j hj
  rw [decide_eq_true_iff]
  intro m hm _
  rcases lt_or_eq_of_le hm with h' | h'
  · exact h m h'
  · simp [h']

lemma count_range_filter_lt (n a : Nat) :
    ((List.range n).filter (fun j => decide (a < j))).length = n - (a + 1) := by
  induction n with
  | zero => simp
  | succ n ih =>
      rw [List.range_succ, List.filter_append, List.length_append, ih]
      by_cases h : a < n <;> simp [h] <;> omega

/-- If `j₀ < i` is the last bar higher than bar `i`, the run has length
`i - j₀`. -/
lemma specSpan_of_violator {prices : List ℚ} {i j₀ : Nat}
    (hj₀ : j₀ < i) (hgt : pAt prices i < pAt prices j₀)
    (hrun : ∀ m, j₀ < m → m < i → pAt prices m ≤ pAt prices i) :
    specSpan prices i = i - j₀ := by
  unfold specSpan
  rw [List.filter_congr (q := fun j => decide (j₀ < j)), count_range_filter_lt]
  · omega
  · intro j hj
    rw [List.mem_range] at hj
    rcases Nat.lt_or_ge j₀ j with h | h
    · simp only [decide_eq_true h, decide_eq_true_iff]
      intro m hm hjm
      rcases lt_or_eq_of_le hm with h' | h'
      · exact hrun m (lt_of_lt_of_le h hjm) h'
      · simp [h']
    · have : ¬ (∀ m, m ≤ i → j ≤ m → pAt prices m ≤ pAt prices i) := by
        intro hall
        exact absurd (hall j₀ (le_of_lt hj₀) h) (not_le.mpr hgt)
      simp only [decide_eq_false this, decide_eq_false (by omega : ¬ j₀ < j)]

/-- The current bar always belongs to its own run, and the run lies inside
the prefix: `1 ≤ specSpan i ≤ i + 1`. -/
lemma specSpan_bounds (prices : List ℚ) (i : Nat) :
    1 ≤ specSpan prices i ∧ specSpan prices i ≤ i + 1 := by
  unfold specSpan
  constructor
  · have hmem : i ∈ (List.range (i + 1)).filter
        (fun j => decide (∀ m, m ≤ i → j ≤ m → pAt prices m ≤ pAt prices i)) := by
      rw [List.mem_filter]
      refine ⟨List.mem_range.mpr (Nat.lt_succ_self i), ?_⟩
      rw [decide_eq_true_iff]
      intro m hm hm'
      have : m = i := le_antisymm hm hm'
      simp [this]
    have := List.length_pos.mpr (List.ne_nil_of_mem hmem)
    omega
  · calc ((List.range (i + 1)).filter _).length
        ≤ (List.range (i + 1)).length := List.length_filter_le _ _
      _ = i + 1 := List.length_range _

lemma stackInv_zero (prices : List ℚ) : StackInv prices 0 [] where
  sound := by simp
  complete := by intro j hj; exact absurd hj.1 (Nat.not_lt_zero j)
  decr := List.Pairwise.nil

lemma mem_of_mem_dropWhile {α} (q : α → Bool) :
    ∀ (l : List α) {x}, x ∈ l.dropWhile q → x ∈ l := by
  intro l
  induction l with
  | nil => simp
  | cons a t ih =>
      intro x hx
      rw [List.dropWhile_cons] at hx
      by_cases h : q a = true
      · rw [if_pos h] at hx
        exact List.mem_cons_of_mem a (ih hx)
      · rw [if_neg h] at hx
        exact hx

lemma mem_dropWhile_of_not {α} (q : α → Bool) :
    ∀ (l : List α) {x}, x ∈ l → q x = false → x ∈ l.dropWhile q := by
  intro l
  induction l with
  | nil => simp
  | cons a t ih =>
      intro x hx hqx
      rw [List.dropWhile_cons]
      by_cases h : q a = true
      · rw [if_pos h]
        rcases List.mem_cons.mp hx with rfl | hx'
        · rw [h] at hqx; cases hqx
        · exact ih hx' hqx
      · rw [if_neg h]
        exact hx

lemma pairwise_dropWhile {α} {R : α → α → Prop} (q : α → Bool) :
    ∀ (l : List α), l.Pairwise R → (l.dropWhile q).Pairwise R := by
  intro l
  induction l with
  | nil => simp
  | cons a t ih =>
      intro hp
      rw [List.dropWhile_cons]
      rcases List.pairwise_cons.mp hp with ⟨ha, ht⟩
      by_cases h : q a = true
      · rw [if_pos h]; exact ih ht
      · rw [if_neg h]; exact hp

lemma dropWhile_head_false {α} (q : α → Bool) :
    ∀ (l : List α) {x : α} {xs : List α}, l.dropWhile q = x :: xs → q x = false := by
  intro l
  induction l with
  | nil => intro x xs h; cases h
  | cons a t ih =>
      intro x xs h
      rw [List.dropWhile_cons] at h
      by_cases hqa : q a = true
      · rw [if_pos hqa] at h
        exact ih h
      · rw [if_neg hqa] at h
        cases h
        simpa using hqa

lemma pairwise_of_pairwise_mem {α} {R S : α → α → Prop} :
    ∀ (l : List α), l.Pairwise R → (∀ a ∈ l, ∀ b ∈ l, R a b → S a b) → l.Pairwise S := by
  intro l
  induction l with
  | nil => intro _ _; exact List.Pairwise.nil
  | cons a t ih =>
      intro hp hmem
      rcases List.pairwise_cons.mp hp with ⟨ha, ht⟩
      refine List.pairwise_cons.mpr ⟨?_, ?_⟩
      · intro b hb
        exact hmem a (List.mem_cons_self a t) b (List.mem_cons_of_mem a hb) (ha b hb)
      · exact ih ht (fun x hx y hy => hmem x (List.mem_cons_of_mem a hx) y (List.mem_cons_of_mem a hy))

/-- Along the stack (top first), prices strictly increase; a consequence of
soundness and the strictly decreasing indices. -/
lemma inv_price_pairwise {prices : List ℚ} {n : Nat} {stack : List SpanEntry}
    (inv : StackInv prices n stack) :
    stack.Pairwise (fun a b => a.price < b.price) := by
  refine pairwise_of_pairwise_mem stack inv.decr ?_
  intro a ha b hb hr
  rcases inv.sound a ha with ⟨hpa, hda⟩
  rcases inv.sound b hb with ⟨hpb, hdb⟩
  rw [hpa, hpb]
  exact hdb.2 a.index hr hda.1

/-- Every entry surviving the pop-while phase has price strictly above the
current price. -/
lemma kept_price_aux {p : ℚ} :
    ∀ (l : List SpanEntry), l.Pairwise (fun a b => a.price < b.price) →
      ∀ x ∈ l.dropWhile (fun e => decide (e.price ≤ p)), p < x.price := by
  intro l
  induction l with
  | nil => simp
  | cons a t ih =>
      intro hp x hx
      rcases List.pairwise_cons.mp hp with ⟨ha, ht⟩
      rw [List.dropWhile_cons] at hx
      by_cases h : a.price ≤ p
      · rw [if_pos (by simpa using h)] at hx
        exact ih ht x hx
      · rw [if_neg (by simpa using h)] at hx
        rcases List.mem_cons.mp hx with rfl | hx'
        · exact lt_of_not_le h
        · exact lt_trans (lt_of_not_le h) (ha x hx')

/-- Greatest violator: if some processed bar is higher than the current
one, the greatest such index is dominant and therefore on the stack. -/
lemma violator_on_stack {prices : List ℚ} {n : Nat} {stack : List SpanEntry}
    (inv : StackInv prices n stack) {j : Nat} (hj : j < n)
    (hgt : pAt prices n < pAt prices j) :
    ∃ e ∈ stack, j ≤ e.index ∧ pAt prices n < e.price := by
  classical
  set P : Nat → Prop := fun m => pAt prices n < pAt prices m with hP
  have hn1 : j ≤ n - 1 := by omega
  have hspec : P (Nat.findGreatest P (n - 1)) := Nat.findGreatest_spec hn1 hgt
  have hle : j ≤ Nat.findGreatest P (n - 1) := Nat.le_findGreatest hn1 hgt
  have hlt : Nat.findGreatest P (n - 1) < n :=
    lt_of_le_of_lt (Nat.findGreatest_le (n - 1)) (by omega)
  have hdom : Dominant prices n (Nat.findGreatest P (n - 1)) := by
    refine ⟨hlt, ?_⟩
    intro m hm hmn
    have hnotP : ¬ P m := Nat.findGreatest_is_greatest hm (by omega)
    have h1 : pAt prices m ≤ pAt prices n := le_of_not_lt hnotP
    exact lt_of_le_of_lt h1 hspec
  rcases inv.complete _ hdom with ⟨e, he, hidx⟩
  refine ⟨e, he, ?_, ?_⟩
  · omega
  · rcases inv.sound e he with ⟨hpe, _⟩
    rw [hpe, hidx]
    exact hspec

lemma spanStep_fst (stack : List SpanEntry) (n : Nat) (p : ℚ) :
    (spanStep stack n p).1 =
      match stack.dropWhile (fun e => decide (e.price ≤ p)) with
      | [] => n + 1
      | e :: _ => n - e.index := rfl

lemma spanStep_snd (stack : List SpanEntry) (n : Nat) (p : ℚ) :
    (spanStep stack n p).2 =
      ⟨n, p⟩ :: stack.dropWhile (fun e => decide (e.price ≤ p)) := rfl

/-- Main step lemma: one loop iteration emits exactly the specified span
and re-establishes the invariant. -/
lemma spanStep_correct {prices : List ℚ} {n : Nat} {stack : List SpanEntry}
    (inv : StackInv prices n stack) :
    (spanStep stack n (pAt prices n)).1 = specSpan prices n ∧
    StackInv prices (n + 1) (spanStep stack n (pAt prices n)).2 := by
  classical
  set p := pAt prices n with hp
  have hkept : ∀ x ∈ stack.dropWhile (fun e => decide (e.price ≤ p)), p < x.price :=
    kept_price_aux stack (inv_price_pairwise inv)
  have hmem1 : ∀ x ∈ stack.dropWhile (fun e => decide (e.price ≤ p)), x ∈ stack :=
    fun x hx => mem_of_mem_dropWhile _ stack hx
  have hsurvive : ∀ e ∈ stack, p < e.price →
      e ∈ stack.dropWhile (fun e => decide (e.price ≤ p)) := by
    intro e he hpe
    exact mem_dropWhile_of_not _ stack he (by simp [not_le.mpr hpe])
  have hsound1 : ∀ e ∈ stack.dropWhile (fun e => decide (e.price ≤ p)),
      e.price = pAt prices e.index ∧ Dominant prices (n + 1) e.index := by
    intro e he
    rcases inv.sound e (hmem1 e he) with ⟨hpe, hde⟩
    refine ⟨hpe, hde.1.trans (Nat.lt_succ_self n), ?_⟩
    intro m hm hmn
    rcases Nat.lt_or_ge m n with h | h
    · exact hde.2 m hm h
    · have : m = n := by omega
      subst this
      rw [← hpe]
      exact hkept e he
  have hcomplete1 : ∀ j, Dominant prices (n + 1) j →
      j = n ∨ ∃ e ∈ stack.dropWhile (fun e => decide (e.price ≤ p)), e.index = j := by
    intro j hj
    rcases Nat.lt_or_ge j n with hjn | hjn
    · right
      have hdomn : Dominant prices n j :=
        ⟨hjn, fun m hm hmn => hj.2 m hm (hmn.trans (Nat.lt_succ_self n))⟩
      rcases inv.complete j hdomn with ⟨e, he, hidx⟩
      refine ⟨e, ?_, hidx⟩
      rcases inv.sound e he with ⟨hpe, _⟩
      refine hsurvive e he ?_
      rw [hpe, hidx]
      exact hj.2 n hjn (Nat.lt_succ_self n)
    · left
      have := hj.1
      omega
  have hidx_lt : ∀ e ∈ stack.dropWhile (fun e => decide (e.price ≤ p)), e.index < n := by
    intro e he
    exact (inv.sound e (hmem1 e he)).2.1
  have hinv1 : StackInv prices (n + 1)
      (⟨n, p⟩ :: stack.dropWhile (fun e => decide (e.price ≤ p))) := by
    refine ⟨?_, ?_, ?_⟩
    · intro e he
      rcases List.mem_cons.mp he with rfl | he'
      · refine ⟨hp, Nat.lt_succ_self n, ?_⟩
        intro m hm hmn
        change n < m at hm
        omega
      · exact hsound1 e he'
    · intro j hj
      rcases hcomplete1 j hj with rfl | ⟨e, he, hidx⟩
      · exact ⟨⟨j, p⟩, List.mem_cons_self _ _, rfl⟩
      · exact ⟨e, List.mem_cons_of_mem _ he, hidx⟩
    · exact List.pairwise_cons.mpr ⟨hidx_lt, pairwise_dropWhile _ stack inv.decr⟩
  rw [spanStep_fst, spanStep_snd]
  rcases hm : stack.dropWhile (fun e => decide (e.price ≤ p)) with _ | ⟨e, rest⟩
  · refine ⟨?_, ?_⟩
    · rw [hm]
      show n + 1 = specSpan prices n
      refine (specSpan_of_no_violator ?_).symm
      intro j hjn
      by_contra hgt
      rcases violator_on_stack inv hjn (lt_of_not_le hgt) with ⟨e, he, _, hpe⟩
      have := hsurvive e he hpe
      rw [hm] at this
      cases this
    · exact hinv1
  · have he1 : e ∈ stack.dropWhile (fun x => decide (x.price ≤ p)) := by
      rw [hm]; exact List.mem_cons_self _ _
    rcases hsound1 e he1 with ⟨hpe, _⟩
    have hde : Dominant prices n e.index := (inv.sound e (hmem1 e he1)).2
    have hpen : pAt prices n < pAt prices e.index := by
      rw [← hpe]
      exact hkept e he1
    refine ⟨?_, ?_⟩
    · rw [hm]
      show n - e.index = specSpan prices n
      refine (specSpan_of_violator hde.1 hpen ?_).symm
      intro m hm1 hm2
      by_contra hgt
      rcases violator_on_stack inv hm2 (lt_of_not_le hgt) with ⟨e2, he2, hle2, hpe2⟩
      have he2' := hsurvive e2 he2 hpe2
      rw [hm] at he2'
      have hdec1 : (e :: rest).Pairwise (fun a b => b.index < a.index) := by
        rw [← hm]
        exact pairwise_dropWhile _ stack inv.decr
      rcases List.mem_cons.mp he2' with rfl | hrest
      · omega
      · have := (List.pairwise_cons.mp hdec1).1 e2 hrest
        omega
    · exact hinv1

/-- Loop correctness: processing the remaining prices from a state
satisfying the invariant emits exactly the specified spans. -/
lemma spanLoop_correct (prices : List ℚ) :
    ∀ (ps pre : List ℚ) (stack : List SpanEntry),
      prices = pre ++ ps → StackInv prices pre.length stack →
      (spanLoop ps pre.length stack).length = ps.length ∧
      ∀ k, k < ps.length →
        (spanLoop ps pre.length stack).getD k 0 = specSpan prices (pre.length + k) := by
  intro ps
  induction ps with
  | nil => intro pre stack _ _; simp [spanLoop]
  | cons p ps2 ih =>
      intro pre stack hsplit inv
      have hpfx : pAt prices pre.length = p := by
        rw [hsplit, pAt, List.getD_append_right _ _ _ _ (le_refl pre.length)]
        simp [List.getD]
      have hstep := spanStep_correct inv
      rw [hpfx] at hstep
      have hsplit2 : prices = (pre ++ [p]) ++ ps2 := by
        rw [hsplit, List.append_assoc]
        rfl
      have hlen2 : (pre ++ [p]).length = pre.length + 1 := by
        simp
      have ih2 := ih (pre ++ [p]) (spanStep stack pre.length p).2 hsplit2
        (by rw [hlen2]; exact hstep.2)
      rw [hlen2] at ih2
      constructor
      · show (spanLoop (p :: ps2) pre.length stack).length = ps2.length + 1
        simp only [spanLoop, List.length_cons]
        rw [(ih2).1]
      · intro k hk
        match k with
        | 0 =>
            show (spanStep stack pre.length p).1 = specSpan prices (pre.length + 0)
            rw [hstep.1, Nat.add_zero]
        | k + 1 =>
            show (spanLoop ps2 (pre.length + 1) (spanStep stack pre.length p).2).getD k 0 =
              specSpan prices (pre.length + (k + 1))
            have := ih2.2 k (by simpa using hk)
            rw [this]
            ring_nf

/-- Main characterization: `calculateSpan` computes exactly the specified span at every index,
and preserves the length. -/
lemma calculateSpan_eq_specSpan (prices : List ℚ) :
    (calculateSpan prices).length = prices.length ∧
    ∀ i, i < prices.length → (calculateSpan prices).getD i 0 = specSpan prices i := by
  have h := spanLoop_correct prices prices [] [] (by simp) (stackInv_zero prices)
  simpa [calculateSpan] using h

lemma length_lastN (w : Nat) (l : List ℚ) :
    (lastN w l).length = min w l.length := by
  simp only [lastN, List.length_drop]
  omega

lemma lastN_of_le {w : Nat} {l : List ℚ} (h : l.length ≤ w) : lastN w l = l := by
  simp only [lastN, Nat.sub_eq_zero_of_le h, List.drop_zero]

lemma lastN_append_of_lt {w : Nat} {l : List ℚ} {c : ℚ} (h : l.length < w) :
    lastN w (l ++ [c]) = l ++ [c] := by
  refine lastN_of_le ?_
  simp only [List.length_append, List.length_cons, List.length_nil]
  omega

lemma lastN_append_of_ge {w : Nat} {l : List ℚ} {c : ℚ} {d : ℚ} {t : List ℚ}
    (hw : 0 < w) (h : w ≤ l.length) (hdt : lastN w l = d :: t) :
    lastN w (l ++ [c]) = t ++ [c] := by
  have hd : l.drop (l.length - w) = d :: t := hdt
  have h1 : (l ++ [c]).length - w = l.length - w + 1 := by
    simp only [List.length_append, List.length_cons, List.length_nil]
    omega
  have h2 : l.length - w + 1 ≤ l.length := by omega
  calc (l ++ [c]).drop ((l ++ [c]).length - w)
      = (l ++ [c]).drop (l.length - w + 1) := by rw [h1]
    _ = l.drop (l.length - w + 1) ++ [c] := List.drop_append_of_le_length h2
    _ = (l.drop (l.length - w)).drop 1 ++ [c] := by rw [List.drop_drop]
    _ = t ++ [c] := by rw [hd]; rfl

lemma maRun_cons (w : Nat) (st : WinState) (c : ℚ) (cs : List ℚ) :
    maRun w st (c :: cs) = (maStep w st c).1 :: maRun w (maStep w st c).2 cs := rfl

/-- Queue/sum invariant: after processing prefix `P`, the queue holds the
last `min w |P|` closes and the sum is their total; then every reported
average is the exact mean of the current window contents. -/
lemma maRun_correct (w : Nat) (hw : 0 < w) :
    ∀ (cs P : List ℚ) (st : WinState),
      st.queue = lastN w P → st.sum = (lastN w P).sum →
      (maRun w st cs).length = cs.length ∧
      ∀ k, k < cs.length →
        (maRun w st cs).getD k 0 =
          (lastN w (P ++ cs.take (k + 1))).sum / ((lastN w (P ++ cs.take (k + 1))).length : ℚ) := by
  intro cs
  induction cs with
  | nil => intro P st _ _; simp [maRun]
  | cons c cs2 ih =>
      intro P st hq hs
      by_cases hPw : P.length < w
      · -- window not yet full: plain append, no eviction
        have hPfull : lastN w P = P := lastN_of_le (le_of_lt hPw)
        rw [hPfull] at hq hs
        have hql : (st.queue ++ [c]).length = P.length + 1 := by
          rw [hq]; simp
        have hcond : ¬ w < (st.queue ++ [c]).length := by rw [hql]; omega
        have hstep : maStep w st c =
            (if P.length + 1 = w then (st.sum + c) / (w : ℚ)
             else (st.sum + c) / ((P.length + 1 : Nat) : ℚ),
             ⟨st.queue ++ [c], st.sum + c⟩) := by
          have hc2 : ¬ w < P.length + 1 := by omega
          simp only [maStep, hql, if_neg hc2]
        have hq2 : (maStep w st c).2.queue = lastN w (P ++ [c]) := by
          rw [hstep, lastN_append_of_lt hPw, hq]
        have hs2 : (maStep w st c).2.sum = (lastN w (P ++ [c])).sum := by
          rw [hstep, lastN_append_of_lt hPw, hs]
          simp
        have ih2 := ih (P ++ [c]) (maStep w st c).2 hq2 hs2
        refine ⟨?_, ?_⟩
        · rw [maRun_cons]
          simp only [List.length_cons, ih2.1]
        · intro k hk
          match k with
          | 0 =>
              rw [maRun_cons]
              show (maStep w st c).1 = _
              have htake : (c :: cs2).take 1 = [c] := rfl
              rw [htake, lastN_append_of_lt hPw]
              have hlen : ((P ++ [c]).length : ℚ) = ((P.length + 1 : Nat) : ℚ) := by
                simp
              have hsum : (P ++ [c]).sum = st.sum + c := by
                rw [hs]; simp
              rw [hstep]
              by_cases hfull : P.length + 1 = w
              · rw [if_pos hfull, hsum, hlen, hfull]
              · rw [if_neg hfull, hsum, hlen]
          | k + 1 =>
              rw [maRun_cons]
              show (maRun w (maStep w st c).2 cs2).getD k 0 = _
              have := ih2.2 k (by simpa using hk)
              rw [this]
              have : P ++ (c :: cs2).take (k + 1 + 1) = (P ++ [c]) ++ cs2.take (k + 1) := by
                simp
              rw [this]
      · -- window full: evict the oldest element
        push_neg at hPw
        have hlenP : (lastN w P).length = w := by
          rw [length_lastN]; omega
        cases hdt : lastN w P with
        | nil => rw [hdt] at hlenP; simp at hlenP; omega
        | cons d t =>
            rw [hdt] at hq hs
            have hlt : t.length + 1 = w := by
              rw [hdt] at hlenP; simpa using hlenP
            have hq1 : st.queue ++ [c] = d :: (t ++ [c]) := by
              rw [hq]; rfl
            have hql : (st.queue ++ [c]).length = w + 1 := by
              rw [hq1]; simp; omega
            have hcond : w < (st.queue ++ [c]).length := by rw [hql]; omega
            have hltc : (t ++ [c]).length = w := by simp; omega
            have hstep : maStep w st c =
                ((st.sum + c - d) / (w : ℚ), ⟨t ++ [c], st.sum + c - d⟩) := by
              simp only [maStep, hq1]
              rw [if_pos (show w < (d :: (t ++ [c])).length by simp; omega)]
              simp [hltc]
            have hlast : lastN w (P ++ [c]) = t ++ [c] :=
              lastN_append_of_ge hw hPw hdt
            have hq2 : (maStep w st c).2.queue = lastN w (P ++ [c]) := by
              rw [hstep, hlast]
            have hs2 : (maStep w st c).2.sum = (lastN w (P ++ [c])).sum := by
              rw [hstep, hlast, hs]
              simp
              ring
            have ih2 := ih (P ++ [c]) (maStep w st c).2 hq2 hs2
            refine ⟨?_, ?_⟩
            · rw [maRun_cons]
              simp only [List.length_cons, ih2.1]
            · intro k hk
              match k with
              | 0 =>
                  rw [maRun_cons]
                  show (maStep w st c).1 = _
                  have htake : (c :: cs2).take 1 = [c] := rfl
                  rw [htake, hlast, hstep]
                  have hsum : (t ++ [c]).sum = st.sum + c - d := by
                    rw [hs]; simp; ring
                  rw [hsum, hltc]
              | k + 1 =>
                  rw [maRun_cons]
                  show (maRun w (maStep w st c).2 cs2).getD k 0 = _
                  have := ih2.2 k (by simpa using hk)
                  rw [this]
                  have : P ++ (c :: cs2).take (k + 1 + 1) = (P ++ [c]) ++ cs2.take (k + 1) := by
                    simp
                  rw [this]

/-- Correctness: `computeMA` reports, at every index, the exact mean of the last
`min (i+1) w` closes. -/
lemma computeMA_correct (w : Nat) (hw : 0 < w) (closes : List ℚ) :
    (computeMA w closes).length = closes.length ∧
    ∀ i, i < closes.length →
      (computeMA w closes).getD i 0 =
        (lastN w (closes.take (i + 1))).sum / ((lastN w (closes.take (i + 1))).length : ℚ) ∧
      (lastN w (closes.take (i + 1))).length = min (i + 1) w := by
  have h := maRun_correct w hw closes [] ⟨[], 0⟩ (by simp [lastN]) (by simp [lastN])
  simp only [List.nil_append] at h
  refine ⟨h.1, ?_⟩
  intro i hi
  refine ⟨h.2 i hi, ?_⟩
  rw [length_lastN, List.length_take]
  omega

lemma lastN_one_take {closes : List ℚ} {i : Nat} (hi : i < closes.length) :
    lastN 1 (closes.take (i + 1)) = [closes.getD i 0] := by
  have hlen : (closes.take (i + 1)).length = i + 1 := by
    rw [List.length_take]; omega
  unfold lastN
  rw [hlen]
  have h1 : i + 1 - 1 = i := by omega
  rw [h1]
  have h2 : i < (closes.take (i + 1)).length := by omega
  rw [List.drop_eq_getElem_cons h2]
  have h3 : i + 1 ≤ (closes.take (i + 1)).length := by omega
  rw [List.drop_eq_nil_of_le (by omega)]
  congr 1
  rw [List.getElem_take]
  exact (List.getD_eq_getElem closes 0 hi).symm

/-- Window size 1 reproduces the close series unchanged. -/
lemma computeMA_one (closes : List ℚ) : computeMA 1 closes = closes := by
  have h := computeMA_correct 1 one_pos closes
  refine List.ext_getElem h.1 ?_
  intro i h1 h2
  have h3 := (h.2 i (by omega)).1
  rw [lastN_one_take (by omega)] at h3
  rw [← List.getD_eq_getElem _ 0 h1, h3]
  simp [List.getElem?_eq_getElem h2]

lemma maRecLoop_length :
    ∀ (ds : List StockData) (s5 s10 s20 : WinState),
      (maRecLoop ds s5 s10 s20).length = ds.length := by
  intro ds
  induction ds with
  | nil => intro _ _ _; rfl
  | cons d t ih => intro s5 s10 s20; simp [maRecLoop, ih]

lemma maRecLoop_fields :
    ∀ (ds : List StockData) (s5 s10 s20 : WinState),
      ∀ r ∈ maRecLoop ds s5 s10 s20,
        (∃ v, r.ma5 = some v) ∧ (∃ v, r.ma10 = some v) ∧ (∃ v, r.ma20 = some v) := by
  intro ds
  induction ds with
  | nil => intro _ _ _; simp [maRecLoop]
  | cons d t ih =>
      intro s5 s10 s20 r hr
      rcases List.mem_cons.mp hr with rfl | hr'
      · refine ⟨⟨(maStep 5 s5 d.close).1, ?_⟩, ⟨(maStep 10 s10 d.close).1, ?_⟩,
          ⟨(maStep 20 s20 d.close).1, ?_⟩⟩ <;> simp [setMA]
      · exact ih _ _ _ r hr'

lemma maRecLoop_ma5 :
    ∀ (ds : List StockData) (s5 s10 s20 : WinState),
      (maRecLoop ds s5 s10 s20).map (fun r => r.ma5) =
        (maRun 5 s5 (ds.map (fun d => d.close))).map some := by
  intro ds
  induction ds with
  | nil => intro _ _ _; rfl
  | cons d t ih =>
      intro s5 s10 s20
      simp only [maRecLoop, List.map_cons, maRun_cons, ih]
      simp [setMA]

lemma maRecLoop_ma10 :
    ∀ (ds : List StockData) (s5 s10 s20 : WinState),
      (maRecLoop ds s5 s10 s20).map (fun r => r.ma10) =
        (maRun 10 s10 (ds.map (fun d => d.close))).map some := by
  intro ds
  induction ds with
  | nil => intro _ _ _; rfl
  | cons d t ih =>
      intro s5 s10 s20
      simp only [maRecLoop, List.map_cons, maRun_cons, ih]
      simp [setMA]

lemma maRecLoop_ma20 :
    ∀ (ds : List StockData) (s5 s10 s20 : WinState),
      (maRecLoop ds s5 s10 s20).map (fun r => r.ma20) =
        (maRun 20 s20 (ds.map (fun d => d.close))).map some := by
  intro ds
  induction ds with
  | nil => intro _ _ _; rfl
  | cons d t ih =>
      intro s5 s10 s20
      simp only [maRecLoop, List.map_cons, maRun_cons, ih]
      simp [setMA]

lemma pearson_def (x y : List ℝ) :
    pearsonCorrelation x y =
      if x.length = 0 then 0
      else if Real.sqrt
          (((x.length : ℝ) * (∑ i ∈ Finset.range x.length, x.getD i 0 * x.getD i 0) -
              (∑ i ∈ Finset.range x.length, x.getD i 0) * (∑ i ∈ Finset.range x.length, x.getD i 0)) *
            ((x.length : ℝ) * (∑ i ∈ Finset.range x.length, y.getD i 0 * y.getD i 0) -
              (∑ i ∈ Finset.range x.length, y.getD i 0) * (∑ i ∈ Finset.range x.length, y.getD i 0))) = 0
        then 0
      else ((x.length : ℝ) * (∑ i ∈ Finset.range x.length, x.getD i 0 * y.getD i 0) -
          (∑ i ∈ Finset.range x.length, x.getD i 0) * (∑ i ∈ Finset.range x.length, y.getD i 0)) /
        Real.sqrt
          (((x.length : ℝ) * (∑ i ∈ Finset.range x.length, x.getD i 0 * x.getD i 0) -
              (∑ i ∈ Finset.range x.length, x.getD i 0) * (∑ i ∈ Finset.range x.length, x.getD i 0)) *
            ((x.length : ℝ) * (∑ i ∈ Finset.range x.length, y.getD i 0 * y.getD i 0) -
              (∑ i ∈ Finset.range x.length, y.getD i 0) * (∑ i ∈ Finset.range x.length, y.getD i 0))) := rfl

/-- Key algebraic identity: `n · Σ (aᵢ-ā)(bᵢ-b̄) = n·Σaᵢbᵢ - Σaᵢ·Σbᵢ`. -/
lemma sum_dev_prod (n : ℕ) (hn : 0 < n) (a b : ℕ → ℝ) :
    (n : ℝ) * ∑ i ∈ Finset.range n,
        (a i - (∑ j ∈ Finset.range n, a j) / n) * (b i - (∑ j ∈ Finset.range n, b j) / n) =
      (n : ℝ) * (∑ i ∈ Finset.range n, a i * b i) -
        (∑ i ∈ Finset.range n, a i) * (∑ i ∈ Finset.range n, b i) := by
  have hne : (n : ℝ) ≠ 0 := Nat.cast_ne_zero.mpr (Nat.pos_iff_ne_zero.mp hn)
  set Sa := ∑ j ∈ Finset.range n, a j with hSa
  set Sb := ∑ j ∈ Finset.range n, b j with hSb
  have hexp : ∀ i ∈ Finset.range n,
      (a i - Sa / n) * (b i - Sb / n) =
        a i * b i - (Sb / n) * a i - (Sa / n) * b i + (Sa / n) * (Sb / n) := by
    intro i _
    ring
  rw [Finset.sum_congr rfl hexp]
  rw [Finset.sum_add_distrib, Finset.sum_sub_distrib, Finset.sum_sub_distrib,
    ← Finset.mul_sum, ← Finset.mul_sum, Finset.sum_const, Finset.card_range, nsmul_eq_mul,
    ← hSa, ← hSb]
  field_simp
  ring

/-- Squared version of `sum_dev_prod`. -/
lemma sum_dev_sq (n : ℕ) (hn : 0 < n) (a : ℕ → ℝ) :
    (n : ℝ) * ∑ i ∈ Finset.range n, (a i - (∑ j ∈ Finset.range n, a j) / n) ^ 2 =
      (n : ℝ) * (∑ i ∈ Finset.range n, a i * a i) -
        (∑ i ∈ Finset.range n, a i) * (∑ i ∈ Finset.range n, a i) := by
  have h := sum_dev_prod n hn a a
  calc (n : ℝ) * ∑ i ∈ Finset.range n, (a i - (∑ j ∈ Finset.range n, a j) / n) ^ 2
      = (n : ℝ) * ∑ i ∈ Finset.range n,
          (a i - (∑ j ∈ Finset.range n, a j) / n) * (a i - (∑ j ∈ Finset.range n, a j) / n) := by
        congr 1
        refine Finset.sum_congr rfl ?_
        intro i _
        ring
    _ = _ := h

lemma devSq_nonneg (x : List ℝ) : 0 ≤ devSq x :=
  Finset.sum_nonneg (fun _ _ => sq_nonneg _)

lemma vx_eq (x : List ℝ) (hn : 0 < x.length) :
    (x.length : ℝ) * (∑ i ∈ Finset.range x.length, x.getD i 0 * x.getD i 0) -
        (∑ i ∈ Finset.range x.length, x.getD i 0) * (∑ i ∈ Finset.range x.length, x.getD i 0) =
      (x.length : ℝ) * devSq x := by
  simp only [devSq, meanL]
  exact (sum_dev_sq x.length hn (fun i => x.getD i 0)).symm

lemma vy_eq (x y : List ℝ) (hn : 0 < x.length) (hlen : y.length = x.length) :
    (x.length : ℝ) * (∑ i ∈ Finset.range x.length, y.getD i 0 * y.getD i 0) -
        (∑ i ∈ Finset.range x.length, y.getD i 0) * (∑ i ∈ Finset.range x.length, y.getD i 0) =
      (x.length : ℝ) * devSq y := by
  simp only [devSq, meanL, hlen]
  exact (sum_dev_sq x.length hn (fun i => y.getD i 0)).symm

lemma num_eq (x y : List ℝ) (hn : 0 < x.length) (hlen : y.length = x.length) :
    (x.length : ℝ) * (∑ i ∈ Finset.range x.length, x.getD i 0 * y.getD i 0) -
        (∑ i ∈ Finset.range x.length, x.getD i 0) * (∑ i ∈ Finset.range x.length, y.getD i 0) =
      (x.length : ℝ) *
        ∑ i ∈ Finset.range x.length, (x.getD i 0 - meanL x) * (y.getD i 0 - meanL y) := by
  simp only [meanL, hlen]
  exact (sum_dev_prod x.length hn (fun i => x.getD i 0) (fun i => y.getD i 0)).symm

/-- Zero variance in the first series forces the `denominator === 0`
fallback. -/
lemma pearson_eq_zero_left (x y : List ℝ) (hx : devSq x = 0) :
    pearsonCorrelation x y = 0 := by
  rw [pearson_def]
  by_cases hn : x.length = 0
  · rw [if_pos hn]
  · rw [if_neg hn]
    have hn' : 0 < x.length := Nat.pos_of_ne_zero hn
    rw [if_pos ?_]
    rw [vx_eq x hn', hx, mul_zero, zero_mul, Real.sqrt_zero]

/-- Zero variance in the second series forces the `denominator === 0`
fallback (equal lengths, as guaranteed by the caller). -/
lemma pearson_eq_zero_right (x y : List ℝ) (hlen : y.length = x.length)
    (hy : devSq y = 0) : pearsonCorrelation x y = 0 := by
  rw [pearson_def]
  by_cases hn : x.length = 0
  · rw [if_pos hn]
  · rw [if_neg hn]
    have hn' : 0 < x.length := Nat.pos_of_ne_zero hn
    rw [if_pos ?_]
    rw [vy_eq x y hn' hlen, hy, mul_zero, mul_zero, Real.sqrt_zero]

/-- In the non-degenerate case the code's computational formula equals the
textbook deviation-form Pearson coefficient. -/
lemma pearson_eq_spec (x y : List ℝ) (hlen : y.length = x.length)
    (hn : 0 < x.length) (hx : devSq x ≠ 0) (hy : devSq y ≠ 0) :
    pearsonCorrelation x y = pearsonSpec x y := by
  have hxpos : 0 < devSq x := lt_of_le_of_ne (devSq_nonneg x) (Ne.symm hx)
  have hypos : 0 < devSq y := lt_of_le_of_ne (devSq_nonneg y) (Ne.symm hy)
  have hnR : (0 : ℝ) < (x.length : ℝ) := by exact_mod_cast hn
  rw [pearson_def, if_neg (Nat.pos_iff_ne_zero.mp hn)]
  rw [vx_eq x hn, vy_eq x y hn hlen, num_eq x y hn hlen]
  have hsq : Real.sqrt ((x.length : ℝ) * devSq x * ((x.length : ℝ) * devSq y)) =
      (x.length : ℝ) * (Real.sqrt (devSq x) * Real.sqrt (devSq y)) := by
    rw [show (x.length : ℝ) * devSq x * ((x.length : ℝ) * devSq y) =
        ((x.length : ℝ) * (x.length : ℝ)) * (devSq x * devSq y) by ring]
    rw [Real.sqrt_mul (by positivity), Real.sqrt_mul_self (le_of_lt hnR),
      Real.sqrt_mul (devSq_nonneg x)]
  rw [hsq]
  have hden : (x.length : ℝ) * (Real.sqrt (devSq x) * Real.sqrt (devSq y)) ≠ 0 := by
    have h1 : Real.sqrt (devSq x) ≠ 0 := by
      rw [Real.sqrt_ne_zero (devSq_nonneg x)]
      exact hx
    have h2 : Real.sqrt (devSq y) ≠ 0 := by
      rw [Real.sqrt_ne_zero (devSq_nonneg y)]
      exact hy
    positivity
  rw [if_neg hden, pearsonSpec, mul_div_mul_left _ _ (ne_of_gt hnR)]

/-! Section: helper lemmas for the router theorems -/

lemma ne_empty_left (a b : String) (h : a ≠ "") : a ++ b ≠ "" := by
  intro he
  apply h
  have hd : a.data ++ b.data = [] := congrArg String.data he
  have ha : a.data = [] := (List.append_eq_nil.mp hd).1
  cases a
  exact congrArg String.mk ha

lemma getLast?_some_of_ne_nil {α} (l : List α) (h : l ≠ []) :
    ∃ a, l.getLast? = some a := by
  cases hl : l.getLast? with
  | some a => exact ⟨a, rfl⟩
  | none => exact absurd (List.getLast?_eq_none_iff.mp hl) h

lemma handleMovingAverageQuery_ne (ai : AIState) (q : String) :
    handleMovingAverageQuery ai q ≠ "" := by
  unfold handleMovingAverageQuery
  cases ai.movingAverages.getLast? with
  | none => dsimp only; decide
  | some latest =>
      dsimp only
      split_ifs <;> (repeat apply ne_empty_left) <;> decide

lemma handleCurrentSpanQuery_ne (ai : AIState) :
    handleCurrentSpanQuery ai ≠ "" := by
  unfold handleCurrentSpanQuery
  cases ai.stockData.getLast? with
  | none => dsimp only; decide
  | some latest =>
      dsimp only
      repeat apply ne_empty_left
      decide

lemma handlePriceQuery_ne (ai : AIState) : handlePriceQuery ai ≠ "" := by
  unfold handlePriceQuery
  cases ai.stockData.getLast? with
  | none => dsimp only; decide
  | some latest =>
      dsimp only
      repeat apply ne_empty_left
      decide

lemma handleTrendQuery_ne (ai : AIState) : handleTrendQuery ai ≠ "" := by
  unfold handleTrendQuery
  split_ifs with h
  · decide
  · have hne : ai.stockData ≠ [] := by
      intro hnil
      rw [hnil] at h
      simp at h
    rcases getLast?_some_of_ne_nil _ hne with ⟨a, ha⟩
    rw [ha]
    dsimp only
    split_ifs <;> (repeat apply ne_empty_left) <;> decide

lemma handleRecommendationQuery_ne (ai : AIState) :
    handleRecommendationQuery ai ≠ "" := by
  unfold handleRecommendationQuery
  split_ifs with h
  · decide
  · simp only [Bool.or_eq_true, not_or, Bool.not_eq_true, List.isEmpty_eq_false] at h
    rcases getLast?_some_of_ne_nil _ h.1 with ⟨a, ha⟩
    rcases getLast?_some_of_ne_nil _ h.2 with ⟨b, hb⟩
    rw [ha, hb]
    dsimp only
    repeat apply ne_empty_left
    decide

lemma handleHighQuery_ne (ai : AIState) : handleHighQuery ai ≠ "" := by
  unfold handleHighQuery
  cases ai.stockData with
  | nil => dsimp only; decide
  | cons d ds =>
      dsimp only
      repeat apply ne_empty_left
      decide

lemma handleLowQuery_ne (ai : AIState) : handleLowQuery ai ≠ "" := by
  unfold handleLowQuery
  cases ai.stockData with
  | nil => dsimp only; decide
  | cons d ds =>
      dsimp only
      repeat apply ne_empty_left
      decide

lemma getDefaultResponse_ne (k : Fin 3) : getDefaultResponse k ≠ "" := by
  fin_cases k <;> decide

/-- The handler's substring-based signal counting agrees with the
condition counts. -/
lemma recSignals_counts (latest : StockData) (latestMA : MARecord) :
    ((recSignals latest latestMA).filter (fun s => occursStr "Bullish" s)).length =
      bullCount latest latestMA ∧
    ((recSignals latest latestMA).filter (fun s => occursStr "Bearish" s)).length =
      bearCount latest latestMA := by
  unfold recSignals bullCount bearCount
  constructor <;> split_ifs <;> rfl

lemma isEmpty_false_of_getLast?_some {α} {l : List α} {a : α}
    (h : l.getLast? = some a) : l.isEmpty = false := by
  cases l with
  | nil => cases h
  | cons x xs => rfl

/-! Section: claim theorems -/

/-- Claim C2: for every sequence of closing prices, `calculateSpan`
returns a sequence of the same length whose `i`-th element is the count
of consecutive bars ending at `i` (inclusive) whose close is ≤
`closes[i]` (`specSpan`); empty input yields empty output, strictly
increasing prices yield span `i+1`, strictly decreasing prices yield
span `1`, and constant prices `[5,5,5]` yield `[1,2,3]`. -/
theorem calculateSpan_meets_spec :
    (∀ prices : List ℚ,
      (calculateSpan prices).length = prices.length ∧
      ∀ i, i < prices.length → (calculateSpan prices).getD i 0 = specSpan prices i) ∧
    calculateSpan [] = [] ∧
    (∀ prices : List ℚ, (∀ k < prices.length, ∀ j < k, pAt prices j < pAt prices k) →
      ∀ i, i < prices.length → (calculateSpan prices).getD i 0 = i + 1) ∧
    (∀ prices : List ℚ, (∀ k < prices.length, ∀ j < k, pAt prices k < pAt prices j) →
      ∀ i, i < prices.length → (calculateSpan prices).getD i 0 = 1) ∧
    calculateSpan [5, 5, 5] = [1, 2, 3] := by
  refine ⟨calculateSpan_eq_specSpan, rfl, ?_, ?_, by decide⟩
  · intro prices h i hi
    rw [(calculateSpan_eq_specSpan prices).2 i hi]
    exact specSpan_of_no_violator (fun j hj => le_of_lt (h i hi j hj))
  · intro prices h i hi
    rw [(calculateSpan_eq_specSpan prices).2 i hi]
    match i with
    | 0 => exact specSpan_of_no_violator (fun j hj => absurd hj (Nat.not_lt_zero j))
    | i + 1 =>
        have := @specSpan_of_violator prices (i + 1) i
          (Nat.lt_succ_self i) (h (i + 1) hi i (Nat.lt_succ_self i))
          (fun m h1 h2 => absurd h2 (by omega))
        rw [this]
        omega

theorem calculateSpan_meets_spec_witness :
    (∀ k < ([10, 11, 12, 13] : List ℚ).length, ∀ j < k,
      pAt [10, 11, 12, 13] j < pAt [10, 11, 12, 13] k) ∧
    (calculateSpan [10, 11, 12, 13]).getD 3 0 = 3 + 1 :=
  ⟨by decide, calculateSpan_meets_spec.2.2.1 [10, 11, 12, 13] (by decide) 3 (by decide)⟩

/-- Claim C7: for every non-empty close series, the span engine's output
has the input's length and every element satisfies `1 ≤ span[i] ≤ i+1`. -/
theorem calculateSpan_length_and_bounds :
    ∀ prices : List ℚ, prices ≠ [] →
      (calculateSpan prices).length = prices.length ∧
      ∀ i, i < prices.length →
        1 ≤ (calculateSpan prices).getD i 0 ∧ (calculateSpan prices).getD i 0 ≤ i + 1 := by
  intro prices _
  refine ⟨(calculateSpan_eq_specSpan prices).1, ?_⟩
  intro i hi
  rw [(calculateSpan_eq_specSpan prices).2 i hi]
  exact specSpan_bounds prices i

theorem calculateSpan_length_and_bounds_witness :
    1 ≤ (calculateSpan [3, 1, 2]).getD 2 0 ∧ (calculateSpan [3, 1, 2]).getD 2 0 ≤ 2 + 1 :=
  (calculateSpan_length_and_bounds [3, 1, 2] (by decide)).2 2 (by decide)

/-- Claim C3: for every input series and window size, the engine's
reported value at index `i` is the exact arithmetic mean of the last
`min (i+1) w` closes; window 1 reproduces the input; window 3 on
`[1,2,3,4,5]` yields `[1, 1.5, 2, 3, 4]`; and the per-day records of
`calculateMovingAverages` report exactly these per-window values for the
configured windows 5, 10 and 20. -/
theorem movingAverage_partial_means :
    (∀ (closes : List ℚ) (w : Nat), 0 < w →
      (computeMA w closes).length = closes.length ∧
      ∀ i, i < closes.length →
        (computeMA w closes).getD i 0 =
          (lastN w (closes.take (i + 1))).sum / ((lastN w (closes.take (i + 1))).length : ℚ) ∧
        (lastN w (closes.take (i + 1))).length = min (i + 1) w) ∧
    (∀ closes : List ℚ, computeMA 1 closes = closes) ∧
    computeMA 3 [1, 2, 3, 4, 5] = [1, 3 / 2, 2, 3, 4] ∧
    (∀ data : List StockData,
      (calculateMovingAverages data).map (fun r => r.ma5) =
        (computeMA 5 (data.map (fun d => d.close))).map some ∧
      (calculateMovingAverages data).map (fun r => r.ma10) =
        (computeMA 10 (data.map (fun d => d.close))).map some ∧
      (calculateMovingAverages data).map (fun r => r.ma20) =
        (computeMA 20 (data.map (fun d => d.close))).map some) := by
  refine ⟨fun closes w hw => computeMA_correct w hw closes, computeMA_one, ?_, ?_⟩
  · simp [computeMA, maRun, maStep]
    norm_num
  · intro data
    exact ⟨maRecLoop_ma5 data _ _ _, maRecLoop_ma10 data _ _ _, maRecLoop_ma20 data _ _ _⟩

theorem movingAverage_partial_means_witness :
    (computeMA 2 [2, 4]).getD 1 0 =
      (lastN 2 (([2, 4] : List ℚ).take 2)).sum / ((lastN 2 (([2, 4] : List ℚ).take 2)).length : ℚ) ∧
    (lastN 2 (([2, 4] : List ℚ).take 2)).length = min 2 2 :=
  (movingAverage_partial_means.1 [2, 4] 2 (by decide)).2 1 (by decide)

/-- Claim C10: `calculateMovingAverages` produces exactly one record per
input point, each with all three fields `ma5`, `ma10`, `ma20` defined
(partial means from the very first point), so the moving-average
handler's `'N/A'` fallback branch of `fmtOptMA` is never taken on
pipeline-produced records. -/
theorem calculateMovingAverages_fields_defined :
    ∀ data : List StockData,
      (calculateMovingAverages data).length = data.length ∧
      ∀ r ∈ calculateMovingAverages data,
        (∃ v, r.ma5 = some v ∧ fmtOptMA r.ma5 = toFixed2 v) ∧
        (∃ v, r.ma10 = some v ∧ fmtOptMA r.ma10 = toFixed2 v) ∧
        (∃ v, r.ma20 = some v ∧ fmtOptMA r.ma20 = toFixed2 v) := by
  intro data
  refine ⟨maRecLoop_length data _ _ _, ?_⟩
  intro r hr
  rcases maRecLoop_fields data _ _ _ r hr with ⟨⟨v5, h5⟩, ⟨v10, h10⟩, ⟨v20, h20⟩⟩
  exact ⟨⟨v5, h5, by rw [h5]; rfl⟩, ⟨v10, h10, by rw [h10]; rfl⟩,
    ⟨v20, h20, by rw [h20]; rfl⟩⟩

theorem calculateMovingAverages_fields_defined_witness :
    (⟨"2024-01-01", some 1, some 1, some 1⟩ : MARecord) ∈
      calculateMovingAverages [⟨"2024-01-01", 1, 1, 1, 1, 1, none⟩] ∧
    ((⟨"2024-01-01", some 1, some 1, some 1⟩ : MARecord).ma10.isSome = true) := by
  have hmem : (⟨"2024-01-01", some 1, some 1, some 1⟩ : MARecord) ∈
      calculateMovingAverages [⟨"2024-01-01", 1, 1, 1, 1, 1, none⟩] := by
    have hev : calculateMovingAverages [⟨"2024-01-01", 1, 1, 1, 1, 1, none⟩] =
        [⟨"2024-01-01", some 1, some 1, some 1⟩] := by
      simp [calculateMovingAverages, maRecLoop, maStep, setMA]
    rw [hev]
    exact List.mem_cons_self _ _
  refine ⟨hmem, ?_⟩
  rcases (calculateMovingAverages_fields_defined [⟨"2024-01-01", 1, 1, 1, 1, 1, none⟩]).2 _ hmem
    with ⟨_, ⟨v10, h10, _⟩, _⟩
  rw [h10]
  rfl

/-- Claim C4: the correlation operation returns `0` whenever the two
series differ in length, or have fewer than 2 paired points, or either
paired series has zero variance; otherwise it returns the Pearson
correlation coefficient of the paired series. -/
theorem correlation_fallbacks :
    ∀ (sd : List SentimentData) (stock : List StockData),
      (sd.length ≠ stock.length → calculateSentimentSpanCorrelation sd stock = 0) ∧
      (sd.length < 2 → calculateSentimentSpanCorrelation sd stock = 0) ∧
      (devSq (sd.map (fun s => s.score)) = 0 →
        calculateSentimentSpanCorrelation sd stock = 0) ∧
      (sd.length = stock.length →
        devSq (stock.map (fun s => ((spanOrZero s : ℚ) : ℝ))) = 0 →
        calculateSentimentSpanCorrelation sd stock = 0) ∧
      (sd.length = stock.length → 2 ≤ sd.length →
        devSq (sd.map (fun s => s.score)) ≠ 0 →
        devSq (stock.map (fun s => ((spanOrZero s : ℚ) : ℝ))) ≠ 0 →
        calculateSentimentSpanCorrelation sd stock =
          pearsonSpec (sd.map (fun s => s.score))
            (stock.map (fun s => ((spanOrZero s : ℚ) : ℝ)))) := by
  intro sd stock
  refine ⟨?_, ?_, ?_, ?_, ?_⟩
  · intro h
    unfold calculateSentimentSpanCorrelation
    rw [if_pos (Or.inl h)]
  · intro h
    unfold calculateSentimentSpanCorrelation
    rw [if_pos (Or.inr h)]
  · intro hvar
    unfold calculateSentimentSpanCorrelation
    split_ifs with h
    · rfl
    · exact pearson_eq_zero_left _ _ hvar
  · intro hlen hvar
    unfold calculateSentimentSpanCorrelation
    split_ifs with h
    · rfl
    · refine pearson_eq_zero_right _ _ ?_ hvar
      simp [hlen]
  · intro hlen h2 hvx hvy
    unfold calculateSentimentSpanCorrelation
    rw [if_neg (by push_neg; exact ⟨hlen, by omega⟩)]
    refine pearson_eq_spec _ _ ?_ ?_ hvx hvy
    · simp [hlen]
    · simp
      omega

theorem correlation_fallbacks_witness :
    calculateSentimentSpanCorrelation [⟨"2024-01-01", 1, 1, 1⟩] [] = 0 :=
  (correlation_fallbacks [⟨"2024-01-01", 1, 1, 1⟩] []).1 (by decide)

/-- Claim C5: `processQuery` lower-cases and trims the query
(`normalizeQuery`), evaluates the matchers in the fixed order
MA → Span → Price → Trend → Recommendation → High → Low, dispatches to
the first matcher's handler, and classifies unmatched queries as
`Unrecognized`. -/
theorem router_dispatch_order :
    ∀ (ai : AIState) (k : Fin 3) (q : String),
      processQuery ai k q = handleIntent ai k ⟨normalizeQuery q⟩ (classify q) ∧
      (p1Match (normalizeQuery q) = true → classify q = Intent.MovingAverageQuery) ∧
      (p1Match (normalizeQuery q) = false → p2Match (normalizeQuery q) = true →
        classify q = Intent.SpanQuery) ∧
      (p1Match (normalizeQuery q) = false → p2Match (normalizeQuery q) = false →
        p3Match (normalizeQuery q) = true → classify q = Intent.PriceQuery) ∧
      (p1Match (normalizeQuery q) = false → p2Match (normalizeQuery q) = false →
        p3Match (normalizeQuery q) = false → p4Match (normalizeQuery q) = true →
        classify q = Intent.TrendQuery) ∧
      (p1Match (normalizeQuery q) = false → p2Match (normalizeQuery q) = false →
        p3Match (normalizeQuery q) = false → p4Match (normalizeQuery q) = false →
        p5Match (normalizeQuery q) = true → classify q = Intent.RecommendationQuery) ∧
      (p1Match (normalizeQuery q) = false → p2Match (normalizeQuery q) = false →
        p3Match (normalizeQuery q) = false → p4Match (normalizeQuery q) = false →
        p5Match (normalizeQuery q) = false → p6Match (normalizeQuery q) = true →
        classify q = Intent.HighQuery) ∧
      (p1Match (normalizeQuery q) = false → p2Match (normalizeQuery q) = false →
        p3Match (normalizeQuery q) = false → p4Match (normalizeQuery q) = false →
        p5Match (normalizeQuery q) = false → p6Match (normalizeQuery q) = false →
        p7Match (normalizeQuery q) = true → classify q = Intent.LowQuery) ∧
      (p1Match (normalizeQuery q) = false → p2Match (normalizeQuery q) = false →
        p3Match (normalizeQuery q) = false → p4Match (normalizeQuery q) = false →
        p5Match (normalizeQuery q) = false → p6Match (normalizeQuery q) = false →
        p7Match (normalizeQuery q) = false → classify q = Intent.Unrecognized) := by
  intro ai k q
  refine ⟨?_, ?_, ?_, ?_, ?_, ?_, ?_, ?_, ?_⟩
  · simp only [processQuery, classify, patternTable, intentOf, handleIntent]
    split_ifs <;> rfl
  all_goals
    intros
    simp_all [classify, patternTable, intentOf]

theorem router_dispatch_order_witness :
    p1Match (normalizeQuery "what is the moving average 10") = true ∧
    classify "what is the moving average 10" = Intent.MovingAverageQuery :=
  ⟨by decide, (router_dispatch_order ⟨[], []⟩ 0 "what is the moving average 10").2.1 (by decide)⟩

/-- Claim C8: the query-answering operation always returns a non-empty
string (every handler's data-missing branch returns advisory text), and
unmatched queries get one of the fixed non-empty set of default
guidance responses. -/
theorem processQuery_total_nonempty :
    ∀ (ai : AIState) (k : Fin 3) (q : String),
      processQuery ai k q ≠ "" ∧
      (classify q = Intent.Unrecognized → processQuery ai k q = getDefaultResponse k) ∧
      getDefaultResponse k ∈ defaultResponses ∧
      defaultResponses ≠ [] := by
  intro ai k q
  refine ⟨?_, ?_, ?_, by decide⟩
  · unfold processQuery
    dsimp only
    split_ifs
    · exact handleMovingAverageQuery_ne ai _
    · exact handleCurrentSpanQuery_ne ai
    · exact handlePriceQuery_ne ai
    · exact handleTrendQuery_ne ai
    · exact handleRecommendationQuery_ne ai
    · exact handleHighQuery_ne ai
    · exact handleLowQuery_ne ai
    · exact getDefaultResponse_ne k
  · intro hcl
    unfold processQuery
    dsimp only
    simp only [classify, patternTable, intentOf] at hcl
    split_ifs <;> simp_all
  · exact List.get_mem defaultResponses k.val k.isLt

set_option maxRecDepth 8192 in
/-- Claim C6: with non-empty series and averages, the recommendation
handler builds its signals from latest close vs latest `ma10` and latest
span vs thresholds, and answers BUY/SELL/HOLD exactly by comparing the
bullish and bearish signal counts, enumerating the signals; the query
"should I buy or sell" on a context with close above `ma10` and span 9
yields a BUY response listing both bullish signals. -/
theorem recommendation_rule :
    (∀ (ai : AIState) (latest : StockData) (latestMA : MARecord),
      ai.stockData.getLast? = some latest →
      ai.movingAverages.getLast? = some latestMA →
      handleRecommendationQuery ai =
        "📊 **" ++ recWord latest latestMA ++ "** - " ++ recReason latest latestMA ++
          "\n\nSignals: " ++ String.intercalate ", " (recSignals latest latestMA)) ∧
    processQuery ctxBuy 0 "should I buy or sell" =
      "📊 **BUY** - Multiple bullish indicators align for a potential buying opportunity.\n\nSignals: Price above 10-day MA (Bullish), High span indicates strong momentum (Bullish)" ∧
    occursStr "BUY" (processQuery ctxBuy 0 "should I buy or sell") = true ∧
    occursStr "Price above 10-day MA (Bullish)"
      (processQuery ctxBuy 0 "should I buy or sell") = true ∧
    occursStr "High span indicates strong momentum (Bullish)"
      (processQuery ctxBuy 0 "should I buy or sell") = true := by
  refine ⟨?_, by decide, by decide, by decide, by decide⟩
  intro ai latest latestMA h1 h2
  unfold handleRecommendationQuery
  rw [isEmpty_false_of_getLast?_some h1, isEmpty_false_of_getLast?_some h2]
  simp only [Bool.or_self, Bool.false_eq_true, if_false]
  rw [h1, h2]
  dsimp only
  rw [(recSignals_counts latest latestMA).1, (recSignals_counts latest latestMA).2]
  unfold recWord recReason
  split_ifs <;> rfl

theorem recommendation_rule_witness :
    ctxBuy.stockData.getLast? = some ⟨"2024-01-01", 100, 112, 95, 110, 1000, some 9⟩ ∧
    handleRecommendationQuery ctxBuy =
      "📊 **" ++ recWord ⟨"2024-01-01", 100, 112, 95, 110, 1000, some 9⟩
          ⟨"2024-01-01", some 105, some 100, some 95⟩ ++
        "** - " ++ recReason ⟨"2024-01-01", 100, 112, 95, 110, 1000, some 9⟩
          ⟨"2024-01-01", some 105, some 100, some 95⟩ ++
        "\n\nSignals: " ++ String.intercalate ", "
          (recSignals ⟨"2024-01-01", 100, 112, 95, 110, 1000, some 9⟩
            ⟨"2024-01-01", some 105, some 100, some 95⟩) :=
  ⟨by decide, recommendation_rule.1 ctxBuy _ _ (by decide) (by decide)⟩

/-- Claim C1 (failing input): the query "what's the 10 day average"
matches none of the router's patterns — the first regex demands a digit
after the `average`/`ma` keyword — so against a context whose latest
record has `ma10 = 123.45` it is classified `Unrecognized` and every
possible answer is a default response not containing "123.45". -/
theorem maQuery_misroutes_digit_before_keyword :
    classify "what\x27s the 10 day average" = Intent.Unrecognized ∧
    (∀ k : Fin 3,
      processQuery ctxMA k "what\x27s the 10 day average" = getDefaultResponse k) ∧
    (∀ k : Fin 3,
      occursStr "123.45" (processQuery ctxMA k "what\x27s the 10 day average") = false) := by
  refine ⟨by decide, ?_, ?_⟩ <;> exact fun k => by fin_cases k <;> decide

theorem processQuery_total_nonempty_witness :
    processQuery ⟨[], []⟩ 0 "zzz" ≠ "" ∧
    processQuery ⟨[], []⟩ 0 "zzz" = getDefaultResponse 0 :=
  ⟨(processQuery_total_nonempty ⟨[], []⟩ 0 "zzz").1,
   (processQuery_total_nonempty ⟨[], []⟩ 0 "zzz").2.1 (by decide)⟩
